import Mathlib

/-!
Shallow embedding of the linfb rendering/composition core
(src/shape.rs, src/compositor.rs, src/text.rs, src/error.rs).

Modelling conventions:
* Rust u8 / usize values are Nat; all arithmetic that the source performs
  on integers is exact, so no wrap-around modelling is needed (the one
  potentially-underflowing usize subtraction, in Rectangle::render, is
  treated below together with a theorem showing the subtraction is only
  reachable when it cannot underflow).
* Rust f32 arithmetic is modelled exactly over the rationals: an IEEE-754
  binary32 operation computes the exact rational result and rounds it to
  24 bits of precision with round-to-nearest, ties-to-even.  All values
  occurring in the source stay far inside the normal range of binary32,
  so overflow/subnormal behaviour never matters.  Casting f32 to u8 in
  Rust truncates toward zero and saturates to the range of u8.
* Rust strings are lists of Chars.  All inputs exercised by the claims are
  ASCII, where byte offsets and character offsets agree.
* The external collaborators of Caption (the rusttype font and the
  xi_unicode line-break iterator) are modelled as an explicit environment
  (FontEnv) providing their outputs, exactly at the interface the source
  consumes them: the list of (offset, is_hard_break) pairs, the measured
  width of a slice, the rasterized grid of a line, and the line gap.
-/

namespace Linfb

/-- Round a rational to an integer, round-to-nearest with ties to even. -/
def rne (q : ℚ) : ℤ :=
  let f := ⌊q⌋
  let r := q - (f : ℚ)
  if r < 1/2 then f
  else if (1 : ℚ)/2 < r then f + 1
  else if f % 2 = 0 then f else f + 1

/-- Fuel-driven floor of the base-2 logarithm of a positive rational:
scales q into the interval [1, 2) while tracking the exponent. -/
def floorLog2Aux : ℕ → ℚ → ℤ → ℤ
  | 0, _, e => e
  | fuel + 1, q, e =>
    if q < 1 then floorLog2Aux fuel (2 * q) (e - 1)
    else if 2 ≤ q then floorLog2Aux fuel (q / 2) (e + 1)
    else e

/-- 2 ^ e for an integer exponent, as a rational. -/
def pow2Z (e : ℤ) : ℚ :=
  if 0 ≤ e then ((2 ^ e.toNat : ℕ) : ℚ) else 1 / ((2 ^ (-e).toNat : ℕ) : ℚ)

/-- Round a positive rational to the nearest binary32 value (24-bit
mantissa, round-to-nearest ties-to-even). -/
def flPos (q : ℚ) : ℚ :=
  let e := floorLog2Aux 300 q 0
  let ulp := pow2Z (e - 23)
  (rne (q / ulp) : ℚ) * ulp

/-- Round a rational to the nearest binary32 value. -/
def fl (q : ℚ) : ℚ :=
  if q = 0 then 0
  else if q < 0 then - flPos (-q) else flPos q

/-- f32 addition: exact sum, rounded. -/
def fadd (x y : ℚ) : ℚ := fl (x + y)

/-- f32 subtraction: exact difference, rounded. -/
def fsub (x y : ℚ) : ℚ := fl (x - y)

/-- f32 multiplication: exact product, rounded. -/
def fmul (x y : ℚ) : ℚ := fl (x * y)

/-- f32 division: exact quotient, rounded. -/
def fdiv (x y : ℚ) : ℚ := fl (x / y)

/-- Rust `as u8` on an f32 value: truncate toward zero, saturating to
[0, 255]. -/
def f32ToU8 (q : ℚ) : ℕ := if q ≤ 0 then 0 else min 255 ⌊q⌋₊

/-- RGBA color (src/shape.rs, struct Color).  Channels are u8. -/
structure Color where
  red : ℕ
  green : ℕ
  blue : ℕ
  alpha : ℕ
deriving DecidableEq

/-- Scalar multiply of a Color by an f32 coefficient (src/shape.rs,
impl Mul<f32> for Color and the identical MulAssign): every channel
besides alpha is scaled and cast back to u8. -/
def Color.mulF32 (c : Color) (coeff : ℚ) : Color :=
  { red := f32ToU8 (fmul (c.red : ℚ) coeff),
    green := f32ToU8 (fmul (c.green : ℚ) coeff),
    blue := f32ToU8 (fmul (c.blue : ℚ) coeff),
    alpha := c.alpha }

/-- The per-cell blend performed by Compositor::render
(src/compositor.rs lines 87-104), translated statement by statement:
opacity and rev_opacity are derived from the source alpha, the previous
color is flattened when its alpha is not 255 (MulAssign by alpha/255,
then alpha forced to 255), and each output channel mixes the two colors
in f32 before casting back to u8; the stored alpha is 255. -/
def blend (color prev : Color) : Color :=
  let opacity := fdiv (color.alpha : ℚ) 255
  let rev_opacity := fsub 1 opacity
  let prev1 :=
    if prev.alpha ≠ 255 then
      { red := (Color.mulF32 prev (fdiv (prev.alpha : ℚ) 255)).red,
        green := (Color.mulF32 prev (fdiv (prev.alpha : ℚ) 255)).green,
        blue := (Color.mulF32 prev (fdiv (prev.alpha : ℚ) 255)).blue,
        alpha := 255 }
    else prev
  { red := f32ToU8 (fadd (fmul (color.red : ℚ) opacity) (fmul (prev1.red : ℚ) rev_opacity)),
    green := f32ToU8 (fadd (fmul (color.green : ℚ) opacity) (fmul (prev1.green : ℚ) rev_opacity)),
    blue := f32ToU8 (fadd (fmul (color.blue : ℚ) opacity) (fmul (prev1.blue : ℚ) rev_opacity)),
    alpha := 255 }

/-- The blend step exactly as the specification words it (spec §4.3,
steps 1-3): compute opacity = src.alpha / 255; if dst.alpha is not 255,
flatten dst by scaling red/green/blue by dst.alpha/255 and forcing its
alpha to 255; then each output channel is
src.channel * opacity + dst.channel * (1 - opacity), with alpha 255.
Written from the spec's sentences, to be compared with blend above. -/
def blendSpec (src dst : Color) : Color :=
  let opacity := fdiv (src.alpha : ℚ) 255
  let dst2 :=
    if dst.alpha ≠ 255 then
      { red := f32ToU8 (fmul (dst.red : ℚ) (fdiv (dst.alpha : ℚ) 255)),
        green := f32ToU8 (fmul (dst.green : ℚ) (fdiv (dst.alpha : ℚ) 255)),
        blue := f32ToU8 (fmul (dst.blue : ℚ) (fdiv (dst.alpha : ℚ) 255)),
        alpha := 255 }
    else dst
  { red := f32ToU8 (fadd (fmul (src.red : ℚ) opacity) (fmul (dst2.red : ℚ) (fsub 1 opacity))),
    green := f32ToU8 (fadd (fmul (src.green : ℚ) opacity) (fmul (dst2.green : ℚ) (fsub 1 opacity))),
    blue := f32ToU8 (fadd (fmul (src.blue : ℚ) opacity) (fmul (dst2.blue : ℚ) (fsub 1 opacity))),
    alpha := 255 }

/-- A pixel grid: rows of optional colors (Vec<Vec<Option<Color>>>). -/
abbrev Grid := List (List (Option Color))

/-- One iteration of the innermost loop of Compositor::render
(src/compositor.rs lines 79-104) for the cell at local position (y, x)
of the child's grid.  The source locals real_x = xoff + x and
real_y = yoff + y are inlined.  The source first checks
real_y >= result.len() || real_x >= result[real_y].len() and skips the
cell when the check fires; reading the row with getD and default []
makes the single length test below equivalent to that disjunction.
The source then unwraps the destination cell; the none branch of the
inner match is unreachable because the grid is initialized without
None and the blend always writes Some. -/
def blendCell (xoff yoff : ℕ) (result : Grid) (y x : ℕ) (color : Option Color) : Grid :=
  if xoff + x < (result.getD (yoff + y) []).length then
    match color with
    | none => result
    | some c =>
      match (result.getD (yoff + y) []).getD (xoff + x) none with
      | none => result
      | some prev =>
          result.set (yoff + y)
            ((result.getD (yoff + y) []).set (xoff + x) (some (blend c prev)))
  else result

/-- The loop `for (x, color) in row.iter().enumerate()`, starting at
index x. -/
def blendRowFrom (xoff yoff y : ℕ) : Grid → ℕ → List (Option Color) → Grid
  | g, _, [] => g
  | g, x, c :: rest => blendRowFrom xoff yoff y (blendCell xoff yoff g y x c) (x + 1) rest

/-- The loop `for (y, row) in shape.shape.render().iter().enumerate()`,
starting at row index y. -/
def blendGridFrom (xoff yoff : ℕ) : Grid → ℕ → Grid → Grid
  | g, _, [] => g
  | g, y, row :: rest => blendGridFrom xoff yoff (blendRowFrom xoff yoff y g 0 row) (y + 1) rest

/-- Blending one child's rendered grid onto the accumulated result. -/
def blendGrid (xoff yoff : ℕ) (g src : Grid) : Grid := blendGridFrom xoff yoff g 0 src

/-- A PositionedShape (src/shape.rs): a placement offset plus the boxed
child Shape.  The claims only ever observe a child through its render()
output, so the trait object is modelled by that output grid. -/
structure PositionedShape where
  x : ℕ
  y : ℕ
  grid : Grid

/-- Compositor (src/compositor.rs): size, background and the ordered,
named children. -/
structure Compositor where
  width : ℕ
  height : ℕ
  background : Color
  shapes : List (String × PositionedShape)

/-- Compositor::render (src/compositor.rs lines 76-109): a width×height
grid of Some(background), then every child is blended in insertion
order. -/
def Compositor.render (c : Compositor) : Grid :=
  c.shapes.foldl (fun res p => blendGrid p.2.x p.2.y res p.2.grid)
    (List.replicate c.height (List.replicate c.width (some c.background)))

/-- Rectangle (src/shape.rs). -/
structure Rectangle where
  width : ℕ
  height : ℕ
  border_width : ℕ
  border_color : Option Color
  fill_color : Option Color

/-- Rectangle::render (src/shape.rs lines 224-244).  The Rust condition
is evaluated left to right with short-circuiting; its two usize
subtractions are modelled by truncating Nat subtraction, which agrees
with usize wherever the source reaches them (see the reachability
theorem for claim C10). -/
def Rectangle.render (r : Rectangle) : Grid :=
  (List.range r.height).map (fun y =>
    (List.range r.width).map (fun x =>
      if x < r.border_width ∨ r.width - r.border_width ≤ x
          ∨ y < r.border_width ∨ r.height - r.border_width ≤ y
      then r.border_color
      else r.fill_color))

/-- The library error type (src/error.rs).  The payloads of BadFont and
BadImage wrap external crates' error types and are abstracted away. -/
inductive Error where
  | InvalidColorString (s : List Char) (reason : String)
  | FontNotFound
  | BadFont
  | BadImage
deriving DecidableEq

/-- Rust char::is_ascii_hexdigit. -/
def isAsciiHexDigit (c : Char) : Bool :=
  c.isDigit || decide ('a' ≤ c ∧ c ≤ 'f') || decide ('A' ≤ c ∧ c ≤ 'F')

/-- Value of one ASCII hex digit, as u8::from_str_radix reads it. -/
def hexVal (c : Char) : ℕ :=
  if c.isDigit then c.toNat - '0'.toNat
  else if 'a' ≤ c ∧ c ≤ 'f' then c.toNat - 'a'.toNat + 10
  else if 'A' ≤ c ∧ c ≤ 'F' then c.toNat - 'A'.toNat + 10
  else 0

/-- Color::hex (src/shape.rs lines 85-116): validate length, leading
marker and hex digits in that order, then parse the 2-digit channel
substrings (u8::from_str_radix of s[2k+1..2k+3] is 16*d1+d2).  In the
Ok branch all characters are ASCII, so the source's byte offsets agree
with the character offsets used here. -/
def Color.hex (s : List Char) : Except Error Color :=
  if s.length ≠ 7 ∧ s.length ≠ 9 then
    Except.error (Error.InvalidColorString s "length must be 7 or 9")
  else if s.head? ≠ some '#' then
    Except.error (Error.InvalidColorString s "first char must be #")
  else if !((s.drop 1).all isAsciiHexDigit) then
    Except.error (Error.InvalidColorString s "all characters but first must be hex")
  else
    Except.ok
      { red := 16 * hexVal (s.getD 1 '0') + hexVal (s.getD 2 '0'),
        green := 16 * hexVal (s.getD 3 '0') + hexVal (s.getD 4 '0'),
        blue := 16 * hexVal (s.getD 5 '0') + hexVal (s.getD 6 '0'),
        alpha :=
          if s.length = 9 then 16 * hexVal (s.getD 7 '0') + hexVal (s.getD 8 '0')
          else 255 }

/-- Text alignment (src/text.rs). -/
inductive Alignment where
  | Left
  | Center
  | Right
deriving DecidableEq

/-- Caption (src/text.rs).  The font handle is external; everything the
source obtains from it (and from the xi_unicode break iterator) lives
in FontEnv below. -/
structure Caption where
  text : List Char
  size : ℕ
  color : Color
  max_width : Option ℕ
  alignment : Alignment

/-- Outputs of Caption's external collaborators, at exactly the
interface the source consumes them: breaks is the output of
LineBreakIterator::new(text) (pairs of offset and is-hard-break flag,
in increasing offset order; per UAX #14 the end of text is always a
hard break), strWidth is Caption::str_width (rendered width of a slice
via the font), renderLine is Caption::render_line, and lineGap is the
font's rounded line_gap metric at the caption's size. -/
structure FontEnv where
  breaks : List (ℕ × Bool)
  strWidth : List Char → ℕ
  renderLine : List Char → Grid
  lineGap : ℕ

/-- Rust slice &text[a..b]. -/
def slice (text : List Char) (a b : ℕ) : List Char := (text.take b).drop a

/-- The mutable locals of Caption::split_text (src/text.rs lines
152-155). -/
structure SplitState where
  prev_offset : ℕ
  prev_break : Option ℕ
  where_to_break : List ℕ
deriving DecidableEq

/-- One iteration of the loop of Caption::split_text (src/text.rs lines
157-186) at a break opportunity (offset, hard_break).  Mirrors the
source statement by statement: when a maximum width is set and the
slice from prev_offset to offset measures wider, and a previous break
was recorded, prev_offset is reset to that break BEFORE the whitespace
adjustment, and the (possibly decremented) break index is pushed; a
hard break then pushes offset and resets prev_offset; finally
prev_break becomes offset.  The source unwraps chars().nth(pb - 1),
which cannot be out of range for genuine iterator offsets; the
arbitrary default 'A' is never read in that situation. -/
def Caption.splitStep (c : Caption) (env : FontEnv) (st : SplitState) (br : ℕ × Bool) : SplitState :=
  let offset := br.1
  let hard_break := br.2
  let st1 : SplitState :=
    match c.max_width with
    | some maxw =>
      let width := env.strWidth (slice c.text st.prev_offset offset)
      if maxw < width then
        match st.prev_break with
        | some pb =>
          let pb2 := if (c.text.getD (pb - 1) 'A').isWhitespace then pb - 1 else pb
          { prev_offset := pb, prev_break := st.prev_break,
            where_to_break := st.where_to_break ++ [pb2] }
        | none => st
      else st
    | none => st
  let st2 : SplitState :=
    if hard_break then
      { prev_offset := offset, prev_break := st1.prev_break,
        where_to_break := st1.where_to_break ++ [offset] }
    else st1
  { prev_offset := st2.prev_offset, prev_break := some offset,
    where_to_break := st2.where_to_break }

/-- Caption::split_text_at_indices (src/text.rs lines 141-150): cut the
text at each index in turn, then push the remainder. -/
def splitTextAtIndices (text : List Char) (indices : List ℕ) : List (List Char) :=
  let fin := indices.foldl (fun acc idx => (idx, acc.2 ++ [slice text acc.1 idx]))
    ((0 : ℕ), ([] : List (List Char)))
  fin.2 ++ [slice text fin.1 text.length]

/-- Caption::split_text (src/text.rs lines 152-189). -/
def Caption.split_text (c : Caption) (env : FontEnv) : List (List Char) :=
  splitTextAtIndices c.text
    ((env.breaks.foldl (c.splitStep env)
      { prev_offset := 0, prev_break := none, where_to_break := [] }).where_to_break)

/-- Caption::align_line (src/text.rs lines 216-245).  Left resizes each
row to the target width (Vec::resize truncates or pads with None);
Right allocates an all-None row and copies the first
min(width, row.len()) cells of the row into its rightmost portion;
Center does the same at offset (width - row_len) / 2. -/
def Caption.align_line (al : Alignment) (line : Grid) (width : ℕ) : Grid :=
  match al with
  | Alignment.Left =>
      line.map (fun row => row.take width ++ List.replicate (width - row.length) none)
  | Alignment.Right =>
      line.map (fun row =>
        let row_len := min width row.length
        List.replicate (width - row_len) (none : Option Color) ++ row.take row_len)
  | Alignment.Center =>
      line.map (fun row =>
        let row_len := min width row.length
        let offset := (width - row_len) / 2
        List.replicate offset (none : Option Color) ++ row.take row_len
          ++ List.replicate (width - row_len - offset) none)

/-- The accumulation loop of Caption::render (src/text.rs lines
256-271): every split line is rendered, its maximum row length folded
into max_real_width BEFORE the line_gap single-None rows are appended,
and the extended line collected. -/
def Caption.renderedLines (c : Caption) (env : FontEnv) : List Grid × Option ℕ :=
  (c.split_text env).foldl
    (fun acc line =>
      let rendered_line := env.renderLine line
      let max_real_width :=
        match (rendered_line.map List.length).max? with
        | some mwidth =>
          match acc.2 with
          | some old => some (max old mwidth)
          | none => some mwidth
        | none => acc.2
      (acc.1 ++ [rendered_line ++ List.replicate env.lineGap [none]], max_real_width))
    ([], none)

/-- The output width chosen by Caption::render (src/text.rs lines
273-277): max_width if configured, otherwise the maximum measured line
width, or 0 if there was none. -/
def Caption.outWidth (c : Caption) (env : FontEnv) : ℕ :=
  match c.max_width with
  | some maxw => maxw
  | none => ((c.renderedLines env).2).getD 0

/-- Caption::render (src/text.rs lines 248-284): align every collected
line (gap rows included) to the output width and concatenate. -/
def Caption.render (c : Caption) (env : FontEnv) : Grid :=
  (((c.renderedLines env).1).map (fun line => Caption.align_line c.alignment line (c.outWidth env))).flatten

/-- The color held by the rendered grid g at row j, column i. -/
def cellAt (g : Grid) (j i : ℕ) : Option Color := (g.getD j []).getD i none

/-- g is an h-by-w rectangular grid. -/
def dims (g : Grid) (h w : ℕ) : Prop := g.length = h ∧ ∀ r ∈ g, r.length = w

/-- Every cell of g is present (no None). -/
def allSome (g : Grid) : Prop := ∀ r ∈ g, ∀ o ∈ r, o.isSome

/-- The cell is present and fully opaque. -/
def alphaFull (o : Option Color) : Prop := ∃ col, o = some col ∧ col.alpha = 255

/-- The child grid src placed at (xoff, yoff) blends onto absolute cell
(j, i): some in-range local cell maps there and is Some. -/
def touchesCell (xoff yoff : ℕ) (src : Grid) (j i : ℕ) : Prop :=
  ∃ ly lx, j = yoff + ly ∧ i = xoff + lx ∧ ((src.getD ly []).getD lx none).isSome

/-- Some child of the compositor blends onto cell (j, i). -/
def Compositor.touched (c : Compositor) (j i : ℕ) : Prop :=
  ∃ p ∈ c.shapes, touchesCell p.2.x p.2.y p.2.grid j i

/-- Concrete caption over the text "Hello\nWorld" with no width limit
(claim C7). -/
def helloCaption : Caption :=
  { text := "Hello\nWorld".data, size := 16, color := ⟨0, 0, 0, 255⟩,
    max_width := none, alignment := Alignment.Left }

/-- Environment for helloCaption.  breaks is the xi_unicode
LineBreakIterator output on "Hello\nWorld": a hard break right after
the newline (offset 6) and the always-hard break at end of text
(offset 11); there is no other break opportunity.  The remaining
fields are irrelevant to line splitting without a width limit. -/
def helloEnv : FontEnv :=
  { breaks := [(6, true), (11, true)], strWidth := fun l => l.length,
    renderLine := fun _ => [], lineGap := 0 }

/-- Concrete caption over the text "ab cd" with max_width 2
(claim C5). -/
def abcdCaption : Caption :=
  { text := "ab cd".data, size := 16, color := ⟨0, 0, 0, 255⟩,
    max_width := some 2, alignment := Alignment.Left }

/-- Environment for abcdCaption: the xi_unicode breaks of "ab cd" are a
soft opportunity after "ab " (offset 3) and the hard end-of-text break
(offset 5); the width measure counts one pixel per character, standing
for a 1px-advance font. -/
def abcdEnv : FontEnv :=
  { breaks := [(3, false), (5, true)], strWidth := fun l => l.length,
    renderLine := fun _ => [], lineGap := 0 }

/-! Generic list facts used throughout. -/

theorem getD_mem_of_lt {α : Type} (l : List α) (i : ℕ) (d : α) (h : i < l.length) :
    l.getD i d ∈ l := by
  rw [List.getD_eq_getElem l d h]; exact List.getElem_mem h

theorem getD_set_self {α : Type} (l : List α) (i : ℕ) (a d : α) (h : i < l.length) :
    (l.set i a).getD i d = a := by
  rw [List.getD_eq_getElem _ d (by simpa using h)]
  simp [List.getElem_set, h]

theorem getD_set_ne {α : Type} (l : List α) (i j : ℕ) (a d : α) (h : i ≠ j) :
    (l.set i a).getD j d = l.getD j d := by
  by_cases hj : j < l.length
  · rw [List.getD_eq_getElem _ d (by simpa using hj), List.getD_eq_getElem _ d hj]
    simp [List.getElem_set, h]
  · rw [List.getD_eq_default _ d (by simpa using Nat.le_of_not_lt hj),
      List.getD_eq_default _ d (by simpa using Nat.le_of_not_lt hj)]

theorem getD_replicate_of_lt {α : Type} (n j : ℕ) (a d : α) (h : j < n) :
    (List.replicate n a).getD j d = a := by
  rw [List.getD_eq_getElem _ d (by simpa using h)]
  simp

theorem foldl_pres {α β : Type} (P : β → Prop) (f : β → α → β)
    (hf : ∀ b a, P b → P (f b a)) :
    ∀ (l : List α) (b : β), P b → P (l.foldl f b) := by
  intro l
  induction l with
  | nil => intro b hb; exact hb
  | cons a rest ih => intro b hb; exact ih (f b a) (hf b a hb)

/-! Facts about a single blend step. -/

theorem blend_alpha (c p : Color) : (blend c p).alpha = 255 := rfl

theorem blendCell_none (xoff yoff : ℕ) (g : Grid) (y x : ℕ) :
    blendCell xoff yoff g y x none = g := by
  unfold blendCell
  split <;> rfl

theorem blendCell_skip (xoff yoff : ℕ) (g : Grid) (y x : ℕ) (c : Option Color)
    (h : (g.getD (yoff + y) []).length ≤ xoff + x) :
    blendCell xoff yoff g y x c = g := by
  unfold blendCell
  rw [if_neg (by omega)]

theorem blendCell_prevNone (xoff yoff : ℕ) (g : Grid) (y x : ℕ) (c : Color)
    (hlt : xoff + x < (g.getD (yoff + y) []).length)
    (hprev : (g.getD (yoff + y) []).getD (xoff + x) none = none) :
    blendCell xoff yoff g y x (some c) = g := by
  unfold blendCell
  rw [if_pos hlt, hprev]

theorem blendCell_hit (xoff yoff : ℕ) (g : Grid) (y x : ℕ) (c prev : Color)
    (hlt : xoff + x < (g.getD (yoff + y) []).length)
    (hprev : (g.getD (yoff + y) []).getD (xoff + x) none = some prev) :
    blendCell xoff yoff g y x (some c) =
      g.set (yoff + y) ((g.getD (yoff + y) []).set (xoff + x) (some (blend c prev))) := by
  unfold blendCell
  rw [if_pos hlt, hprev]

theorem row_lt_of_getD_length_pos (g : Grid) (j k : ℕ)
    (h : k < (g.getD j []).length) : j < g.length := by
  by_contra hge
  rw [List.getD_eq_default _ _ (Nat.le_of_not_lt hge)] at h
  simp at h

theorem blendCell_cellAt_ne (xoff yoff : ℕ) (g : Grid) (y x : ℕ) (c : Option Color)
    (j i : ℕ) (h : j ≠ yoff + y ∨ i ≠ xoff + x) :
    cellAt (blendCell xoff yoff g y x c) j i = cellAt g j i := by
  unfold blendCell
  split
  · cases c with
    | none => rfl
    | some col =>
      cases hprev : (g.getD (yoff + y) []).getD (xoff + x) none with
      | none => rfl
      | some prev =>
        rename_i hlt
        unfold cellAt
        rcases h with h | h
        · rw [getD_set_ne _ _ _ _ _ (fun e => h e.symm)]
        · by_cases hj : j = yoff + y
          · have hylt : yoff + y < g.length := row_lt_of_getD_length_pos g _ _ hlt
            rw [hj, getD_set_self _ _ _ _ hylt, getD_set_ne _ _ _ _ _ (fun e => h e.symm)]
          · rw [getD_set_ne _ _ _ _ _ (fun e => hj e.symm)]
  · rfl

theorem blendCell_cellAt_hit (xoff yoff : ℕ) (g : Grid) (y x : ℕ) (c prev : Color)
    (hlt : xoff + x < (g.getD (yoff + y) []).length)
    (hprev : (g.getD (yoff + y) []).getD (xoff + x) none = some prev) :
    cellAt (blendCell xoff yoff g y x (some c)) (yoff + y) (xoff + x) = some (blend c prev) := by
  rw [blendCell_hit xoff yoff g y x c prev hlt hprev]
  unfold cellAt
  have hylt : yoff + y < g.length := row_lt_of_getD_length_pos g _ _ hlt
  rw [getD_set_self _ _ _ _ hylt, getD_set_self _ _ _ _ (by simpa using hlt)]

theorem blendCell_cellAt_cases (xoff yoff : ℕ) (g : Grid) (y x : ℕ) (c : Option Color)
    (j i : ℕ) :
    cellAt (blendCell xoff yoff g y x c) j i = cellAt g j i ∨
      ∃ col prev, cellAt (blendCell xoff yoff g y x c) j i = some (blend col prev) := by
  by_cases h : j = yoff + y ∧ i = xoff + x
  · obtain ⟨hj, hi⟩ := h
    subst hj; subst hi
    by_cases hlt : xoff + x < (g.getD (yoff + y) []).length
    · cases c with
      | none => left; rw [blendCell_none]
      | some col =>
        cases hprev : (g.getD (yoff + y) []).getD (xoff + x) none with
        | none => left; rw [blendCell_prevNone _ _ _ _ _ _ hlt hprev]
        | some prev =>
          right
          exact ⟨col, prev, blendCell_cellAt_hit _ _ _ _ _ _ _ hlt hprev⟩
    · left; rw [blendCell_skip _ _ _ _ _ _ (Nat.le_of_not_lt hlt)]
  · left
    apply blendCell_cellAt_ne
    tauto

theorem blendCell_alphaFull (xoff yoff : ℕ) (g : Grid) (y x : ℕ) (c : Option Color)
    (j i : ℕ) (h : alphaFull (cellAt g j i)) :
    alphaFull (cellAt (blendCell xoff yoff g y x c) j i) := by
  rcases blendCell_cellAt_cases xoff yoff g y x c j i with he | ⟨col, prev, he⟩
  · rw [he]; exact h
  · rw [he]; exact ⟨blend col prev, rfl, blend_alpha col prev⟩

theorem blendCell_dims (xoff yoff : ℕ) (g : Grid) (y x : ℕ) (c : Option Color)
    (h w : ℕ) (hd : dims g h w) : dims (blendCell xoff yoff g y x c) h w := by
  unfold blendCell
  split
  · cases c with
    | none => exact hd
    | some col =>
      cases hprev : (g.getD (yoff + y) []).getD (xoff + x) none with
      | none => exact hd
      | some prev =>
        rename_i hlt
        refine ⟨by rw [List.length_set]; exact hd.1, ?_⟩
        intro r hr
        rcases List.mem_or_eq_of_mem_set hr with hr | hr
        · exact hd.2 r hr
        · subst hr
          rw [List.length_set]
          exact hd.2 _ (getD_mem_of_lt _ _ _ (row_lt_of_getD_length_pos g _ _ hlt))
  · exact hd

theorem blendCell_allSome (xoff yoff : ℕ) (g : Grid) (y x : ℕ) (c : Option Color)
    (ha : allSome g) : allSome (blendCell xoff yoff g y x c) := by
  unfold blendCell
  split
  · cases c with
    | none => exact ha
    | some col =>
      cases hprev : (g.getD (yoff + y) []).getD (xoff + x) none with
      | none => exact ha
      | some prev =>
        rename_i hlt
        intro r hr o ho
        rcases List.mem_or_eq_of_mem_set hr with hr | hr
        · exact ha r hr o ho
        · subst hr
          rcases List.mem_or_eq_of_mem_set ho with ho | ho
          · exact ha _ (getD_mem_of_lt _ _ _ (row_lt_of_getD_length_pos g _ _ hlt)) o ho
          · subst ho; rfl
  · exact ha

/-! Facts about the per-row loop. -/

theorem blendRowFrom_cellAt_ne (xoff yoff y j i : ℕ) (hj : j ≠ yoff + y) :
    ∀ (l : List (Option Color)) (x0 : ℕ) (g : Grid),
      cellAt (blendRowFrom xoff yoff y g x0 l) j i = cellAt g j i := by
  intro l
  induction l with
  | nil => intro x0 g; rfl
  | cons c rest ih =>
    intro x0 g
    simp only [blendRowFrom]
    rw [ih (x0 + 1) _, blendCell_cellAt_ne xoff yoff g y x0 c j i (Or.inl hj)]

theorem blendRowFrom_untouched (xoff yoff y j i : ℕ) :
    ∀ (l : List (Option Color)) (x0 : ℕ) (g : Grid),
      (∀ lx, (l.getD lx none).isSome → i ≠ xoff + (x0 + lx)) →
      cellAt (blendRowFrom xoff yoff y g x0 l) j i = cellAt g j i := by
  intro l
  induction l with
  | nil => intro x0 g _; rfl
  | cons c rest ih =>
    intro x0 g hl
    simp only [blendRowFrom]
    have hrest : ∀ lx, (rest.getD lx none).isSome → i ≠ xoff + ((x0 + 1) + lx) := by
      intro lx hs
      have := hl (lx + 1) (by simpa using hs)
      omega
    rw [ih (x0 + 1) _ hrest]
    cases hc : c with
    | none => rw [blendCell_none]
    | some col =>
      have hi : i ≠ xoff + x0 := by
        have := hl 0 (by simp [hc])
        omega
      rw [blendCell_cellAt_ne xoff yoff g y x0 (some col) j i (Or.inr hi)]

theorem blendRowFrom_dims (xoff yoff y h w : ℕ) :
    ∀ (l : List (Option Color)) (x0 : ℕ) (g : Grid),
      dims g h w → dims (blendRowFrom xoff yoff y g x0 l) h w := by
  intro l
  induction l with
  | nil => intro x0 g hd; exact hd
  | cons c rest ih =>
    intro x0 g hd
    simp only [blendRowFrom]
    exact ih (x0 + 1) _ (blendCell_dims xoff yoff g y x0 c h w hd)

theorem blendRowFrom_allSome (xoff yoff y : ℕ) :
    ∀ (l : List (Option Color)) (x0 : ℕ) (g : Grid),
      allSome g → allSome (blendRowFrom xoff yoff y g x0 l) := by
  intro l
  induction l with
  | nil => intro x0 g ha; exact ha
  | cons c rest ih =>
    intro x0 g ha
    simp only [blendRowFrom]
    exact ih (x0 + 1) _ (blendCell_allSome xoff yoff g y x0 c ha)

theorem blendRowFrom_alphaFull (xoff yoff y j i : ℕ) :
    ∀ (l : List (Option Color)) (x0 : ℕ) (g : Grid),
      alphaFull (cellAt g j i) →
      alphaFull (cellAt (blendRowFrom xoff yoff y g x0 l) j i) := by
  intro l
  induction l with
  | nil => intro x0 g hf; exact hf
  | cons c rest ih =>
    intro x0 g hf
    simp only [blendRowFrom]
    exact ih (x0 + 1) _ (blendCell_alphaFull xoff yoff g y x0 c j i hf)

theorem blendRowFrom_touched (xoff yoff y h w : ℕ) (hyh : yoff + y < h) :
    ∀ (l : List (Option Color)) (lx x0 : ℕ) (g : Grid),
      dims g h w → allSome g →
      (l.getD lx none).isSome → xoff + (x0 + lx) < w →
      alphaFull (cellAt (blendRowFrom xoff yoff y g x0 l) (yoff + y) (xoff + (x0 + lx))) := by
  intro l
  induction l with
  | nil => intro lx x0 g _ _ hs _; simp [List.getD] at hs
  | cons c rest ih =>
    intro lx x0 g hd ha hs hxw
    cases lx with
    | zero =>
      cases hc : c with
      | none => rw [hc] at hs; simp at hs
      | some col =>
        simp only [blendRowFrom]
        apply blendRowFrom_alphaFull
        have hrowlen : (g.getD (yoff + y) []).length = w := by
          have hylt : yoff + y < g.length := by rw [hd.1]; exact hyh
          exact hd.2 _ (getD_mem_of_lt _ _ _ hylt)
        have hlt : xoff + x0 < (g.getD (yoff + y) []).length := by
          rw [hrowlen]; simpa using hxw
        have hcell : ((g.getD (yoff + y) []).getD (xoff + x0) none).isSome := by
          have hylt : yoff + y < g.length := by rw [hd.1]; exact hyh
          have hmem : (g.getD (yoff + y) []).getD (xoff + x0) none ∈ g.getD (yoff + y) [] :=
            getD_mem_of_lt _ _ _ hlt
          cases ho : (g.getD (yoff + y) []).getD (xoff + x0) none with
          | none =>
            exact ha _ (getD_mem_of_lt _ _ _ hylt) _ (ho ▸ hmem)
          | some prev => rfl
        cases ho : (g.getD (yoff + y) []).getD (xoff + x0) none with
        | none => rw [ho] at hcell; simp at hcell
        | some prev =>
          have hhit := blendCell_cellAt_hit xoff yoff g y x0 col prev hlt ho
          have harith : xoff + (x0 + 0) = xoff + x0 := by omega
          rw [harith, hhit]
          exact ⟨blend col prev, rfl, blend_alpha col prev⟩
    | succ n =>
      simp only [blendRowFrom]
      have harith : xoff + (x0 + (n + 1)) = xoff + ((x0 + 1) + n) := by omega
      rw [harith]
      exact ih n (x0 + 1) _ (blendCell_dims xoff yoff g y x0 c h w hd)
        (blendCell_allSome xoff yoff g y x0 c ha) (by simpa using hs) (by omega)

/-! Facts about the per-child loop over all rows. -/

theorem blendGridFrom_dims (xoff yoff h w : ℕ) :
    ∀ (src : Grid) (y0 : ℕ) (g : Grid),
      dims g h w → dims (blendGridFrom xoff yoff g y0 src) h w := by
  intro src
  induction src with
  | nil => intro y0 g hd; exact hd
  | cons row rest ih =>
    intro y0 g hd
    simp only [blendGridFrom]
    exact ih (y0 + 1) _ (blendRowFrom_dims xoff yoff y0 h w row 0 g hd)

theorem blendGridFrom_allSome (xoff yoff : ℕ) :
    ∀ (src : Grid) (y0 : ℕ) (g : Grid),
      allSome g → allSome (blendGridFrom xoff yoff g y0 src) := by
  intro src
  induction src with
  | nil => intro y0 g ha; exact ha
  | cons row rest ih =>
    intro y0 g ha
    simp only [blendGridFrom]
    exact ih (y0 + 1) _ (blendRowFrom_allSome xoff yoff y0 row 0 g ha)

theorem blendGridFrom_alphaFull (xoff yoff j i : ℕ) :
    ∀ (src : Grid) (y0 : ℕ) (g : Grid),
      alphaFull (cellAt g j i) →
      alphaFull (cellAt (blendGridFrom xoff yoff g y0 src) j i) := by
  intro src
  induction src with
  | nil => intro y0 g hf; exact hf
  | cons row rest ih =>
    intro y0 g hf
    simp only [blendGridFrom]
    exact ih (y0 + 1) _ (blendRowFrom_alphaFull xoff yoff y0 j i row 0 g hf)

theorem blendGridFrom_untouched (xoff yoff j i : ℕ) :
    ∀ (src : Grid) (y0 : ℕ) (g : Grid),
      (∀ ly lx, ((src.getD ly []).getD lx none).isSome →
        ¬(j = yoff + (y0 + ly) ∧ i = xoff + lx)) →
      cellAt (blendGridFrom xoff yoff g y0 src) j i = cellAt g j i := by
  intro src
  induction src with
  | nil => intro y0 g _; rfl
  | cons row rest ih =>
    intro y0 g hsrc
    simp only [blendGridFrom]
    have hrest : ∀ ly lx, ((rest.getD ly []).getD lx none).isSome →
        ¬(j = yoff + ((y0 + 1) + ly) ∧ i = xoff + lx) := by
      intro ly lx hs
      have := hsrc (ly + 1) lx (by simpa using hs)
      omega
    rw [ih (y0 + 1) _ hrest]
    by_cases hj : j = yoff + y0
    · apply blendRowFrom_untouched
      intro lx hs
      have := hsrc 0 lx (by simpa using hs)
      omega
    · exact blendRowFrom_cellAt_ne xoff yoff y0 j i hj row 0 g

theorem blendGridFrom_touched (xoff yoff h w : ℕ) :
    ∀ (src : Grid) (ly y0 lx : ℕ) (g : Grid),
      dims g h w → allSome g →
      ((src.getD ly []).getD lx none).isSome →
      yoff + (y0 + ly) < h → xoff + lx < w →
      alphaFull (cellAt (blendGridFrom xoff yoff g y0 src) (yoff + (y0 + ly)) (xoff + lx)) := by
  intro src
  induction src with
  | nil => intro ly y0 lx g _ _ hs _ _; simp [List.getD] at hs
  | cons row rest ih =>
    intro ly y0 lx g hd ha hs hyh hxw
    cases ly with
    | zero =>
      simp only [blendGridFrom]
      apply blendGridFrom_alphaFull
      have hyh0 : yoff + y0 < h := by omega
      have := blendRowFrom_touched xoff yoff y0 h w hyh0 row lx 0 g hd ha
        (by simpa using hs) (by omega)
      have harith : yoff + (y0 + 0) = yoff + y0 := by omega
      have harith2 : xoff + (0 + lx) = xoff + lx := by omega
      rw [harith]
      rw [harith2] at this
      exact this
    | succ n =>
      simp only [blendGridFrom]
      have harith : yoff + (y0 + (n + 1)) = yoff + ((y0 + 1) + n) := by omega
      rw [harith]
      exact ih n (y0 + 1) lx _ (blendRowFrom_dims xoff yoff y0 h w row 0 g hd)
        (blendRowFrom_allSome xoff yoff y0 row 0 g ha) (by simpa using hs)
        (by omega) hxw

/-! Facts about the fold over the compositor's children. -/

theorem shapesFold_cellAt_untouched (j i : ℕ) :
    ∀ (shapes : List (String × PositionedShape)) (g : Grid),
      (∀ p ∈ shapes, ¬ touchesCell p.2.x p.2.y p.2.grid j i) →
      cellAt (shapes.foldl (fun res p => blendGrid p.2.x p.2.y res p.2.grid) g) j i =
        cellAt g j i := by
  intro shapes
  induction shapes with
  | nil => intro g _; rfl
  | cons p rest ih =>
    intro g hsh
    rw [List.foldl_cons, ih _ (fun q hq => hsh q (List.mem_cons_of_mem p hq))]
    unfold blendGrid
    apply blendGridFrom_untouched
    intro ly lx hs hji
    exact hsh p (List.mem_cons_self p rest)
      ⟨ly, lx, by omega, hji.2, hs⟩

theorem shapesFold_dims (h w : ℕ) :
    ∀ (shapes : List (String × PositionedShape)) (g : Grid),
      dims g h w →
      dims (shapes.foldl (fun res p => blendGrid p.2.x p.2.y res p.2.grid) g) h w := by
  intro shapes
  induction shapes with
  | nil => intro g hd; exact hd
  | cons p rest ih =>
    intro g hd
    rw [List.foldl_cons]
    exact ih _ (blendGridFrom_dims p.2.x p.2.y h w p.2.grid 0 g hd)

theorem shapesFold_allSome :
    ∀ (shapes : List (String × PositionedShape)) (g : Grid),
      allSome g →
      allSome (shapes.foldl (fun res p => blendGrid p.2.x p.2.y res p.2.grid) g) := by
  intro shapes
  induction shapes with
  | nil => intro g ha; exact ha
  | cons p rest ih =>
    intro g ha
    rw [List.foldl_cons]
    exact ih _ (blendGridFrom_allSome p.2.x p.2.y p.2.grid 0 g ha)

theorem shapesFold_alphaFull (j i : ℕ) :
    ∀ (shapes : List (String × PositionedShape)) (g : Grid),
      alphaFull (cellAt g j i) →
      alphaFull (cellAt (shapes.foldl (fun res p => blendGrid p.2.x p.2.y res p.2.grid) g) j i) := by
  intro shapes
  induction shapes with
  | nil => intro g hf; exact hf
  | cons p rest ih =>
    intro g hf
    rw [List.foldl_cons]
    exact ih _ (blendGridFrom_alphaFull p.2.x p.2.y j i p.2.grid 0 g hf)

theorem shapesFold_touched (h w j i : ℕ) :
    ∀ (shapes : List (String × PositionedShape)) (g : Grid),
      dims g h w → allSome g → j < h → i < w →
      (∃ p ∈ shapes, touchesCell p.2.x p.2.y p.2.grid j i) →
      alphaFull (cellAt (shapes.foldl (fun res p => blendGrid p.2.x p.2.y res p.2.grid) g) j i) := by
  intro shapes
  induction shapes with
  | nil => intro g _ _ _ _ he; simp at he
  | cons p rest ih =>
    intro g hd ha hj hi he
    rw [List.foldl_cons]
    rcases he with ⟨q, hq, htouch⟩
    rcases List.mem_cons.mp hq with hq | hq
    · subst hq
      apply shapesFold_alphaFull
      rcases htouch with ⟨ly, lx, hjy, hix, hs⟩
      have hj0 : j = q.2.y + (0 + ly) := by omega
      rw [hjy, hix]
      unfold blendGrid
      have := blendGridFrom_touched q.2.x q.2.y h w q.2.grid ly 0 lx g hd ha hs
        (by omega) (by omega)
      have harith : q.2.y + (0 + ly) = q.2.y + ly := by omega
      rw [harith] at this
      exact this
    · exact ih _ (blendGridFrom_dims p.2.x p.2.y h w p.2.grid 0 g hd)
        (blendGridFrom_allSome p.2.x p.2.y p.2.grid 0 g ha) hj hi ⟨q, hq, htouch⟩

/-! Facts about the initial background grid and other helpers. -/

theorem dims_init (h w : ℕ) (bg : Color) :
    dims (List.replicate h (List.replicate w (some bg))) h w := by
  refine ⟨List.length_replicate h _, ?_⟩
  intro r hr
  rw [List.eq_of_mem_replicate hr]
  exact List.length_replicate w _

theorem allSome_init (h w : ℕ) (bg : Color) :
    allSome (List.replicate h (List.replicate w (some bg))) := by
  intro r hr o ho
  rw [List.eq_of_mem_replicate hr] at ho
  rw [List.eq_of_mem_replicate ho]
  rfl

theorem cellAt_init (h w : ℕ) (bg : Color) (j i : ℕ) (hj : j < h) (hi : i < w) :
    cellAt (List.replicate h (List.replicate w (some bg))) j i = some bg := by
  unfold cellAt
  rw [getD_replicate_of_lt _ _ _ _ hj, getD_replicate_of_lt _ _ _ _ hi]

theorem map_eq_replicate_of {α β : Type} (l : List α) (f : α → β) (b : β)
    (h : ∀ a ∈ l, f a = b) : l.map f = List.replicate l.length b := by
  induction l with
  | nil => rfl
  | cons a rest ih =>
    simp only [List.map_cons, List.length_cons, List.replicate_succ]
    rw [h a (List.mem_cons_self a rest), ih (fun x hx => h x (List.mem_cons_of_mem a hx))]

theorem align_line_row_length (al : Alignment) (line : Grid) (width : ℕ) :
    ∀ row ∈ Caption.align_line al line width, row.length = width := by
  intro row hrow
  cases al <;>
    simp only [Caption.align_line] at hrow <;>
    rcases List.mem_map.mp hrow with ⟨r, _, rfl⟩ <;>
    simp [List.length_append, List.length_take, List.length_replicate] <;>
    omega

theorem slice_head (text : List Char) (a b : ℕ) (hab : a < b) (hlen : a < text.length) :
    (slice text a b).head? = some (text.getD a 'A') := by
  unfold slice
  rw [List.head?_drop, List.getElem?_take]
  rw [if_pos hab]
  rw [List.getElem?_eq_getElem hlen, List.getD_eq_getElem _ _ hlen]

theorem splitFold_no_max (c : Caption) (env : FontEnv) (hm : c.max_width = none) :
    ∀ (bs : List (ℕ × Bool)) (st : SplitState),
      (bs.foldl (c.splitStep env) st).where_to_break =
        st.where_to_break ++ (bs.filter (fun p => p.2)).map (fun p => p.1) := by
  intro bs
  induction bs with
  | nil => intro st; simp
  | cons b rest ih =>
    intro st
    rw [List.foldl_cons, ih]
    have hstep : (c.splitStep env st b).where_to_break =
        st.where_to_break ++ if b.2 then [b.1] else [] := by
      simp only [Caption.splitStep, hm]
      cases b.2 <;> simp
    rw [hstep]
    cases hb : b.2 <;> simp [List.filter_cons, hb]

/-! Whole-grid identity when every Some source cell falls outside the
canvas. -/

theorem blendCell_out (xoff yoff : ℕ) (g : Grid) (y x : ℕ) (c : Option Color)
    (h w : ℕ) (hd : dims g h w) (hout : w ≤ xoff + x ∨ h ≤ yoff + y) :
    blendCell xoff yoff g y x c = g := by
  apply blendCell_skip
  by_cases hyy : yoff + y < g.length
  · have hrow : (g.getD (yoff + y) []).length = w := hd.2 _ (getD_mem_of_lt _ _ _ hyy)
    rw [hrow]
    rcases hout with hout | hout
    · exact hout
    · have hlen := hd.1
      exact absurd hyy (by omega)
  · rw [List.getD_eq_default _ _ (Nat.le_of_not_lt hyy)]
    exact Nat.zero_le _

theorem blendRowFrom_out (xoff yoff y h w : ℕ) :
    ∀ (l : List (Option Color)) (x0 : ℕ) (g : Grid), dims g h w →
      (∀ lx, (l.getD lx none).isSome → w ≤ xoff + (x0 + lx) ∨ h ≤ yoff + y) →
      blendRowFrom xoff yoff y g x0 l = g := by
  intro l
  induction l with
  | nil => intro x0 g _ _; rfl
  | cons c rest ih =>
    intro x0 g hd hl
    simp only [blendRowFrom]
    have hhead : blendCell xoff yoff g y x0 c = g := by
      cases hc : c with
      | none => exact blendCell_none xoff yoff g y x0
      | some col =>
        apply blendCell_out xoff yoff g y x0 _ h w hd
        have := hl 0 (by simp [hc])
        omega
    rw [hhead]
    apply ih (x0 + 1) g hd
    intro lx hs
    have := hl (lx + 1) (by simpa using hs)
    omega

theorem blendGridFrom_out (xoff yoff h w : ℕ) :
    ∀ (src : Grid) (y0 : ℕ) (g : Grid), dims g h w →
      (∀ ly lx, ((src.getD ly []).getD lx none).isSome →
        w ≤ xoff + lx ∨ h ≤ yoff + (y0 + ly)) →
      blendGridFrom xoff yoff g y0 src = g := by
  intro src
  induction src with
  | nil => intro y0 g _ _; rfl
  | cons row rest ih =>
    intro y0 g hd hsrc
    simp only [blendGridFrom]
    have hhead : blendRowFrom xoff yoff y0 g 0 row = g := by
      apply blendRowFrom_out xoff yoff y0 h w row 0 g hd
      intro lx hs
      have := hsrc 0 lx (by simpa using hs)
      omega
    rw [hhead]
    apply ih (y0 + 1) g hd
    intro ly lx hs
    have := hsrc (ly + 1) lx (by simpa using hs)
    omega

/-! The claims. -/

/-- C1: whenever Compositor::render blends a Some source cell onto a
destination cell, the operations happen exactly in the spec's order:
opacity = src.alpha / 255 is computed; a destination whose alpha is not
255 is first flattened (red/green/blue scaled by dst.alpha/255, alpha
forced to 255); each output channel is then
src.channel * opacity + dst.channel * (1 - opacity), and the result is
stored with alpha 255 as the new destination cell.  Part (a): the
source's blend coincides with blendSpec, the function transcribed from
the spec's sentences (whose output alpha is literally 255).  Part (b):
the per-cell loop body stores exactly that blend of the source color
over the current destination cell. -/
theorem blend_order_matches_spec :
    (∀ src dst : Color, blend src dst = blendSpec src dst) ∧
    (∀ (xoff yoff : ℕ) (g : Grid) (y x : ℕ) (c prev : Color),
      xoff + x < (g.getD (yoff + y) []).length →
      (g.getD (yoff + y) []).getD (xoff + x) none = some prev →
      blendCell xoff yoff g y x (some c) =
        g.set (yoff + y)
          ((g.getD (yoff + y) []).set (xoff + x) (some (blendSpec c prev)))) := by
  have hbs : ∀ src dst : Color, blend src dst = blendSpec src dst := by
    intro src dst
    rfl
  refine ⟨hbs, ?_⟩
  intro xoff yoff g y x c prev hlt hprev
  rw [blendCell_hit xoff yoff g y x c prev hlt hprev, hbs c prev]

/-- Witness for C1 at a concrete grid and colors. -/
theorem blend_order_matches_spec_witness :
    blendCell 0 0 [[some ⟨9, 9, 9, 200⟩]] 0 0 (some ⟨5, 5, 5, 255⟩) =
      [[some (blendSpec ⟨5, 5, 5, 255⟩ ⟨9, 9, 9, 200⟩)]] := by
  have h := blend_order_matches_spec.2 0 0 [[some ⟨9, 9, 9, 200⟩]] 0 0
    ⟨5, 5, 5, 255⟩ ⟨9, 9, 9, 200⟩ (by decide) (by decide)
  simpa using h

/-- C2: in a rendered Compositor grid, a cell no child ever blends onto
still holds exactly the original background color, original alpha
included; a cell at least one child blended onto holds a color whose
alpha is exactly 255. -/
theorem compositor_untouched_keeps_background :
    ∀ (c : Compositor) (j i : ℕ), j < c.height → i < c.width →
      (¬ c.touched j i → cellAt c.render j i = some c.background) ∧
      (c.touched j i → alphaFull (cellAt c.render j i)) := by
  intro c j i hj hi
  constructor
  · intro hnt
    unfold Compositor.render
    rw [shapesFold_cellAt_untouched j i c.shapes _ (fun p hp ht => hnt ⟨p, hp, ht⟩),
      cellAt_init c.height c.width c.background j i hj hi]
  · intro ht
    unfold Compositor.render
    exact shapesFold_touched c.height c.width j i c.shapes _
      (dims_init _ _ _) (allSome_init _ _ _) hj hi ht

/-- Witness for C2: an empty Compositor with a semi-transparent
background keeps that background, alpha 77 included, at cell (0,0). -/
theorem compositor_untouched_keeps_background_witness :
    cellAt (Compositor.render ⟨1, 1, ⟨3, 4, 5, 77⟩, []⟩) 0 0 = some ⟨3, 4, 5, 77⟩ := by
  have h := (compositor_untouched_keeps_background ⟨1, 1, ⟨3, 4, 5, 77⟩, []⟩ 0 0
    (by decide) (by decide)).1
  refine h (fun ht => ?_)
  rcases ht with ⟨p, hp, _⟩
  exact absurd hp (List.not_mem_nil p)

/-- C3: every render() implementation yields a rectangular grid: a
Rectangle's render has outer length height and every row has length
width; a Compositor's render has outer length height and every row has
length width; a Caption's render (line-gap rows included) has every row
of one common length, the output width chosen by render. -/
theorem render_grids_rectangular :
    (∀ r : Rectangle, (Rectangle.render r).length = r.height ∧
      ∀ row ∈ Rectangle.render r, row.length = r.width) ∧
    (∀ c : Compositor, (Compositor.render c).length = c.height ∧
      ∀ row ∈ Compositor.render c, row.length = c.width) ∧
    (∀ (c : Caption) (env : FontEnv),
      ∀ row ∈ c.render env, row.length = c.outWidth env) := by
  refine ⟨?_, ?_, ?_⟩
  · intro r
    constructor
    · simp [Rectangle.render]
    · intro row hrow
      unfold Rectangle.render at hrow
      rcases List.mem_map.mp hrow with ⟨y, _, rfl⟩
      simp
  · intro c
    have hd := shapesFold_dims c.height c.width c.shapes _
      (dims_init c.height c.width c.background)
    exact ⟨hd.1, hd.2⟩
  · intro c env row hrow
    unfold Caption.render at hrow
    rcases List.mem_flatten.mp hrow with ⟨line, hline, hrowline⟩
    rcases List.mem_map.mp hline with ⟨l0, _, rfl⟩
    exact align_line_row_length c.alignment l0 (c.outWidth env) row hrowline

/-- Witness for C3 at concrete shapes of each kind. -/
theorem render_grids_rectangular_witness :
    [some (⟨1, 2, 3, 255⟩ : Color), some ⟨1, 2, 3, 255⟩].length = 2 ∧
    [some (⟨7, 8, 9, 255⟩ : Color)].length = 1 ∧
    [(none : Option Color)].length =
      Caption.outWidth ⟨[], 1, ⟨0, 0, 0, 255⟩, none, Alignment.Left⟩
        ⟨[], fun _ => 0, fun _ => [[none]], 0⟩ := by
  refine ⟨(render_grids_rectangular.1 ⟨2, 1, 0, none, some ⟨1, 2, 3, 255⟩⟩).2 _ (by decide),
    (render_grids_rectangular.2.1 ⟨1, 1, ⟨7, 8, 9, 255⟩, []⟩).2 _ (by decide),
    render_grids_rectangular.2.2 ⟨[], 1, ⟨0, 0, 0, 255⟩, none, Alignment.Left⟩
      ⟨[], fun _ => 0, fun _ => [[none]], 0⟩ _ (by decide)⟩

/-- C4 counterexample: blending source red 100 (alpha 128) over opaque
destination red 200 yields 149, but the claimed formula
round(src*0.5 + dst*0.5) gives round(150) = 150.  (The code computes
opacity as the f32 rounding of 128/255 = 0.50196..., not 0.5, and
truncates instead of rounding when casting the f32 result to u8.) -/
theorem alpha128_blend_not_round :
    (blend ⟨100, 0, 0, 128⟩ ⟨200, 0, 0, 255⟩).red = 149 ∧
    round ((100 : ℚ) * (1/2) + (200 : ℚ) * (1/2)) = 150 ∧
    (149 : ℤ) ≠ round ((100 : ℚ) * (1/2) + (200 : ℚ) * (1/2)) := by
  refine ⟨?_, ?_, ?_⟩
  · with_unfolding_all decide
  · with_unfolding_all decide
  · with_unfolding_all decide

/-- C4 amended: for a source cell of alpha 128 blended over a fully
opaque destination cell, each output channel is the f32 value
src.channel * opacity + dst.channel * (1 - opacity) — with
opacity = 128/255 rounded to f32 and every operation rounded to f32 —
truncated to u8, and the output alpha is 255. -/
theorem alpha128_blend_formula :
    ∀ src dst : Color, src.alpha = 128 → dst.alpha = 255 →
      blend src dst =
        { red := f32ToU8 (fadd (fmul (src.red : ℚ) (fdiv 128 255))
            (fmul (dst.red : ℚ) (fsub 1 (fdiv 128 255)))),
          green := f32ToU8 (fadd (fmul (src.green : ℚ) (fdiv 128 255))
            (fmul (dst.green : ℚ) (fsub 1 (fdiv 128 255)))),
          blue := f32ToU8 (fadd (fmul (src.blue : ℚ) (fdiv 128 255))
            (fmul (dst.blue : ℚ) (fsub 1 (fdiv 128 255)))),
          alpha := 255 } := by
  intro src dst hs hd
  unfold blend
  rw [hs, hd]
  norm_num

/-- Witness for C4's amended claim at concrete colors. -/
theorem alpha128_blend_formula_witness :
    blend ⟨10, 20, 30, 128⟩ ⟨1, 2, 3, 255⟩ =
      { red := f32ToU8 (fadd (fmul ((10 : ℕ) : ℚ) (fdiv 128 255))
          (fmul ((1 : ℕ) : ℚ) (fsub 1 (fdiv 128 255)))),
        green := f32ToU8 (fadd (fmul ((20 : ℕ) : ℚ) (fdiv 128 255))
          (fmul ((2 : ℕ) : ℚ) (fsub 1 (fdiv 128 255)))),
        blue := f32ToU8 (fadd (fmul ((30 : ℕ) : ℚ) (fdiv 128 255))
          (fmul ((3 : ℕ) : ℚ) (fsub 1 (fdiv 128 255)))),
        alpha := 255 } :=
  alpha128_blend_formula ⟨10, 20, 30, 128⟩ ⟨1, 2, 3, 255⟩ rfl rfl

/-- C5 counterexample: splitting "ab cd" at max_width 2 (1px-per-char
font) closes the first line at the adjusted break 2, producing lines
"ab" and " cd": the trimmed space is the head of the FOLLOWING line,
contradicting "the trimmed whitespace character appears on neither the
closed line nor the following line".  Moreover the loop body applied to
state (segment_start 0, previous break 3) at a non-mandatory
opportunity 5 yields segment_start 3 — the UNADJUSTED break offset —
while pushing the adjusted break 2, contradicting "segment_start
restarting at the (possibly adjusted) break offset". -/
theorem split_trim_kept_on_next_line :
    (Caption.split_text abcdCaption abcdEnv).getD 1 [] = [' ', 'c', 'd'] ∧
    Char.isWhitespace ' ' = true ∧
    Caption.splitStep abcdCaption abcdEnv ⟨0, some 3, []⟩ (5, false) =
      ⟨3, some 5, [2]⟩ := by
  refine ⟨by decide, by decide, by decide⟩

/-- C5 amended: when the measured width between segment_start and the
current opportunity exceeds max_width, a previous opportunity pb was
recorded, and the character before pb is whitespace, the loop body (at
a non-mandatory opportunity) closes the line at the adjusted break
pb - 1 — so the trimmed character is excluded from the closed line —
but restarts segment_start at the UNadjusted offset pb, and the
character at position pb - 1 (the trimmed whitespace) becomes the head
of the next text segment, the one starting at the pushed cut
position pb - 1. -/
theorem split_step_trim_characterization :
    (∀ (c : Caption) (env : FontEnv) (st : SplitState) (offset maxw pb : ℕ),
      c.max_width = some maxw →
      maxw < env.strWidth (slice c.text st.prev_offset offset) →
      st.prev_break = some pb →
      (c.text.getD (pb - 1) 'A').isWhitespace = true →
      c.splitStep env st (offset, false) =
        { prev_offset := pb, prev_break := some offset,
          where_to_break := st.where_to_break ++ [pb - 1] }) ∧
    (∀ (text : List Char) (a b : ℕ), a < b → a < text.length →
      (slice text a b).head? = some (text.getD a 'A')) := by
  constructor
  · intro c env st offset maxw pb hm hw hpb hws
    simp only [List.getD_eq_getElem?_getD] at hws
    simp [Caption.splitStep, hm, hpb, hw, hws]
  · exact slice_head

/-- Witness for C5's amended claim at the concrete "ab cd" caption. -/
theorem split_step_trim_characterization_witness :
    Caption.splitStep abcdCaption abcdEnv ⟨0, some 3, []⟩ (5, false) =
      { prev_offset := 3, prev_break := some 5, where_to_break := [] ++ [2] } ∧
    (slice ("ab cd".data) 2 5).head? = some (("ab cd".data).getD 2 'A') := by
  refine ⟨split_step_trim_characterization.1 abcdCaption abcdEnv ⟨0, some 3, []⟩ 5 2 3
      rfl (by decide) rfl (by decide),
    split_step_trim_characterization.2 ("ab cd".data) 2 5 (by decide) (by decide)⟩

/-- C6 counterexample: aligning the 3-cell row [1,2,3] (reds shown) to
width 2 with Right keeps the LEADING cells [1,2], not the trailing
cells [2,3] the claim names; aligning the 4-cell row [1,2,3,4] to width
2 with Center also keeps the leading cells, not the both-sides clip
[2,3]. -/
theorem align_clip_keeps_leading :
    Caption.align_line Alignment.Right
        [[some ⟨1, 0, 0, 255⟩, some ⟨2, 0, 0, 255⟩, some ⟨3, 0, 0, 255⟩]] 2 =
      [[some ⟨1, 0, 0, 255⟩, some ⟨2, 0, 0, 255⟩]] ∧
    Caption.align_line Alignment.Right
        [[some ⟨1, 0, 0, 255⟩, some ⟨2, 0, 0, 255⟩, some ⟨3, 0, 0, 255⟩]] 2 ≠
      [[some ⟨2, 0, 0, 255⟩, some ⟨3, 0, 0, 255⟩]] ∧
    Caption.align_line Alignment.Center
        [[some ⟨1, 0, 0, 255⟩, some ⟨2, 0, 0, 255⟩, some ⟨3, 0, 0, 255⟩,
          some ⟨4, 0, 0, 255⟩]] 2 ≠
      [[some ⟨2, 0, 0, 255⟩, some ⟨3, 0, 0, 255⟩]] := by
  refine ⟨by decide, by decide, by decide⟩

/-- C6 amended: for a line wider than the target width, Right and
Center both keep only the LEADING width cells (overflow clipped from
the right end); for a line narrower than the target, Right places it
into the rightmost portion of an all-None row and Center centers it
with the left offset computed by integer floor division. -/
theorem align_line_characterization :
    ∀ (width : ℕ) (row : List (Option Color)),
      (width ≤ row.length →
        Caption.align_line Alignment.Right [row] width = [row.take width] ∧
        Caption.align_line Alignment.Center [row] width = [row.take width]) ∧
      (row.length ≤ width →
        Caption.align_line Alignment.Right [row] width =
          [List.replicate (width - row.length) none ++ row] ∧
        Caption.align_line Alignment.Center [row] width =
          [List.replicate ((width - row.length) / 2) none ++ row ++
            List.replicate (width - row.length - (width - row.length) / 2) none]) := by
  intro width row
  constructor
  · intro h
    constructor
    · simp [Caption.align_line, Nat.min_eq_left h]
    · simp [Caption.align_line, Nat.min_eq_left h]
  · intro h
    constructor
    · simp [Caption.align_line, Nat.min_eq_right h, List.take_of_length_le h]
    · simp [Caption.align_line, Nat.min_eq_right h, List.take_of_length_le h]

/-- Witness for C6's amended claim at concrete rows. -/
theorem align_line_characterization_witness :
    Caption.align_line Alignment.Right
        [[some ⟨1, 0, 0, 255⟩, some ⟨2, 0, 0, 255⟩, some ⟨3, 0, 0, 255⟩]] 2 =
      [[some (⟨1, 0, 0, 255⟩ : Color), some ⟨2, 0, 0, 255⟩, some ⟨3, 0, 0, 255⟩].take 2] ∧
    Caption.align_line Alignment.Right [[some ⟨5, 5, 5, 255⟩]] 3 =
      [List.replicate 2 none ++ [some ⟨5, 5, 5, 255⟩]] := by
  refine ⟨((align_line_characterization 2
      [some ⟨1, 0, 0, 255⟩, some ⟨2, 0, 0, 255⟩, some ⟨3, 0, 0, 255⟩]).1 (by decide)).1,
    ?_⟩
  have h := ((align_line_characterization 3 [some ⟨5, 5, 5, 255⟩]).2 (by decide)).1
  simpa using h

/-- C7 counterexample: with no width limit, splitting "Hello\nWorld"
does not yield the two lines "Hello" and "World": it yields THREE
segments — "Hello\n" (the newline is retained at the end of the first
segment, because the cut is placed at the break offset 6, which lies
after the newline), "World", and a trailing empty segment produced by
the final push of text[last..] after the end-of-text hard break. -/
theorem hello_world_split_not_two_lines :
    Caption.split_text helloCaption helloEnv ≠ ["Hello".data, "World".data] ∧
    Caption.split_text helloCaption helloEnv = ["Hello\n".data, "World".data, []] := by
  refine ⟨by decide, by decide⟩

/-- C7 amended: with max_width = None the splitter never cuts at a
soft (allowed-only) opportunity — the cut indices are exactly the
offsets of the mandatory breaks, in order; on "Hello\nWorld" this
yields the three segments "Hello\n", "World" and "" (not the two lines
"Hello", "World": the newline stays at the end of the first segment
and a trailing empty segment follows the end-of-text mandatory
break). -/
theorem split_no_max_only_hard_breaks :
    (∀ (c : Caption) (env : FontEnv), c.max_width = none →
      c.split_text env =
        splitTextAtIndices c.text
          ((env.breaks.filter (fun p => p.2)).map (fun p => p.1))) ∧
    Caption.split_text helloCaption helloEnv = ["Hello\n".data, "World".data, []] := by
  constructor
  · intro c env hm
    unfold Caption.split_text
    rw [splitFold_no_max c env hm env.breaks _]
    simp
  · decide

/-- Witness for C7's amended claim at the concrete "Hello\nWorld"
caption. -/
theorem split_no_max_only_hard_breaks_witness :
    Caption.split_text helloCaption helloEnv =
      splitTextAtIndices helloCaption.text
        ((helloEnv.breaks.filter (fun p => p.2)).map (fun p => p.1)) :=
  split_no_max_only_hard_breaks.1 helloCaption helloEnv rfl

/-- C8: a source cell whose absolute target position lies outside the
compositor's bounds is skipped, leaving the whole destination grid
unchanged (part a, at the cell level: the loop body is the identity
when the bounds check fires); consequently a compositor whose only
child lies entirely outside the canvas renders identically to the
empty compositor with the same width, height and background (part b). -/
theorem oob_blend_skipped :
    (∀ (xoff yoff : ℕ) (g : Grid) (y x : ℕ) (c : Option Color),
      (g.getD (yoff + y) []).length ≤ xoff + x →
      blendCell xoff yoff g y x c = g) ∧
    (∀ (w h : ℕ) (bg : Color) (name : String) (s : PositionedShape),
      (∀ ly lx, ((s.grid.getD ly []).getD lx none).isSome →
        w ≤ s.x + lx ∨ h ≤ s.y + ly) →
      Compositor.render ⟨w, h, bg, [(name, s)]⟩ =
        Compositor.render ⟨w, h, bg, []⟩) := by
  constructor
  · exact fun xoff yoff g y x c hle => blendCell_skip xoff yoff g y x c hle
  · intro w h bg name s hout
    unfold Compositor.render
    simp only [List.foldl_cons, List.foldl_nil]
    unfold blendGrid
    apply blendGridFrom_out s.x s.y h w s.grid 0 _ (dims_init h w bg)
    intro ly lx hs
    have := hout ly lx hs
    omega

/-- Witness for C8: a 1×1 child placed at (5,5) on a 2×2 canvas leaves
the render identical to the empty compositor's. -/
theorem oob_blend_skipped_witness :
    Compositor.render ⟨2, 2, ⟨9, 9, 9, 200⟩, [("s", ⟨5, 5, [[some ⟨1, 2, 3, 255⟩]]⟩)]⟩ =
      Compositor.render ⟨2, 2, ⟨9, 9, 9, 200⟩, []⟩ :=
  oob_blend_skipped.2 2 2 ⟨9, 9, 9, 200⟩ "s" ⟨5, 5, [[some ⟨1, 2, 3, 255⟩]]⟩
    (fun ly lx _ => Or.inl (by show (2 : ℕ) ≤ 5 + lx; omega))

/-- C9: Color::hex returns an error exactly when the string is
malformed — length neither 7 nor 9, or first character not '#', or a
non-hex character after the first — and that error is the
InvalidColorString value carrying the offending string (and a reason);
on well-formed input it returns Ok with the channels parsed from the
hex pairs (alpha from the fourth pair when the length is 9, else
255). -/
theorem hex_error_characterization :
    ∀ (s : List Char),
      ((∃ reason, Color.hex s = Except.error (Error.InvalidColorString s reason)) ↔
        ¬((s.length = 7 ∨ s.length = 9) ∧ s.head? = some '#' ∧
          (s.drop 1).all isAsciiHexDigit = true)) ∧
      (((s.length = 7 ∨ s.length = 9) ∧ s.head? = some '#' ∧
          (s.drop 1).all isAsciiHexDigit = true) →
        Color.hex s = Except.ok
          { red := 16 * hexVal (s.getD 1 '0') + hexVal (s.getD 2 '0'),
            green := 16 * hexVal (s.getD 3 '0') + hexVal (s.getD 4 '0'),
            blue := 16 * hexVal (s.getD 5 '0') + hexVal (s.getD 6 '0'),
            alpha :=
              if s.length = 9 then 16 * hexVal (s.getD 7 '0') + hexVal (s.getD 8 '0')
              else 255 }) := by
  intro s
  unfold Color.hex
  by_cases h1 : s.length ≠ 7 ∧ s.length ≠ 9
  · rw [if_pos h1]
    refine ⟨⟨fun _ hgood => absurd hgood.1 (by tauto),
      fun _ => ⟨"length must be 7 or 9", rfl⟩⟩, ?_⟩
    intro hgood
    exact absurd hgood.1 (by tauto)
  · rw [if_neg h1]
    by_cases h2 : s.head? ≠ some '#'
    · rw [if_pos h2]
      refine ⟨⟨fun _ hgood => absurd hgood.2.1 h2,
        fun _ => ⟨"first char must be #", rfl⟩⟩, ?_⟩
      intro hgood
      exact absurd hgood.2.1 h2
    · rw [if_neg h2]
      by_cases h3 : (!((s.drop 1).all isAsciiHexDigit)) = true
      · rw [if_pos h3]
        have hbad : (s.drop 1).all isAsciiHexDigit ≠ true := by
          intro htrue
          rw [htrue] at h3
          simp at h3
        refine ⟨⟨fun _ hgood => absurd hgood.2.2 hbad,
          fun _ => ⟨"all characters but first must be hex", rfl⟩⟩, ?_⟩
        intro hgood
        exact absurd hgood.2.2 hbad
      · rw [if_neg h3]
        have hall : (s.drop 1).all isAsciiHexDigit = true := by
          cases hallc : (s.drop 1).all isAsciiHexDigit
          · rw [hallc] at h3
            simp at h3
          · rfl
        refine ⟨⟨?_, ?_⟩, fun _ => rfl⟩
        · rintro ⟨reason, habs⟩
          exact Except.noConfusion habs
        · intro hbad
          exfalso
          exact hbad ⟨by tauto, not_ne_iff.mp h2, hall⟩

/-- Witness for C9: a well-formed and a malformed input. -/
theorem hex_error_characterization_witness :
    Color.hex ("#112233".data) = Except.ok ⟨17, 34, 51, 255⟩ ∧
    (∃ reason, Color.hex ("#1122".data) =
      Except.error (Error.InvalidColorString ("#1122".data) reason)) := by
  constructor
  · exact ((hex_error_characterization ("#112233".data)).2 (by decide)).trans
      (congrArg Except.ok (by decide))
  · exact (hex_error_characterization ("#1122".data)).1.mpr (by decide)

/-- C10: a Rectangle with positive sides that is at most 2*border_width
wide or at most 2*border_width tall renders as all border_color (the
fill color never appears), and the two usize subtractions
width - border_width and height - border_width in the border test are
only reachable when border_width is strictly below width (resp.
height), the preceding x < border_width (resp. y < border_width) test
short-circuiting otherwise, so the subtraction can never underflow. -/
theorem rectangle_thin_all_border :
    ∀ (r : Rectangle),
      (0 < r.width → 0 < r.height →
        (r.width ≤ 2 * r.border_width ∨ r.height ≤ 2 * r.border_width) →
        Rectangle.render r =
          List.replicate r.height (List.replicate r.width r.border_color)) ∧
      (∀ x, x < r.width → ¬ x < r.border_width → r.border_width < r.width) ∧
      (∀ y, y < r.height → ¬ y < r.border_width → r.border_width < r.height) := by
  intro r
  refine ⟨?_, fun x hx hbx => by omega, fun y hy hby => by omega⟩
  intro _ _ hthin
  unfold Rectangle.render
  have houter : ∀ y ∈ List.range r.height,
      (List.range r.width).map (fun x =>
        if x < r.border_width ∨ r.width - r.border_width ≤ x
            ∨ y < r.border_width ∨ r.height - r.border_width ≤ y
        then r.border_color
        else r.fill_color) = List.replicate r.width r.border_color := by
    intro y hy
    have hy' := List.mem_range.mp hy
    have hinner : ∀ x ∈ List.range r.width,
        (if x < r.border_width ∨ r.width - r.border_width ≤ x
            ∨ y < r.border_width ∨ r.height - r.border_width ≤ y
        then r.border_color
        else r.fill_color) = r.border_color := by
      intro x hx
      have hx' := List.mem_range.mp hx
      rw [if_pos]
      rcases hthin with h | h
      · by_cases hxb : x < r.border_width
        · exact Or.inl hxb
        · exact Or.inr (Or.inl (by omega))
      · by_cases hyb : y < r.border_width
        · exact Or.inr (Or.inr (Or.inl hyb))
        · exact Or.inr (Or.inr (Or.inr (by omega)))
    rw [map_eq_replicate_of _ _ _ hinner, List.length_range]
  rw [map_eq_replicate_of _ _ _ houter, List.length_range]

/-- Witness for C10 at a 2×3 rectangle with border width 1. -/
theorem rectangle_thin_all_border_witness :
    Rectangle.render ⟨2, 3, 1, some ⟨7, 7, 7, 255⟩, some ⟨1, 1, 1, 255⟩⟩ =
      List.replicate 3 (List.replicate 2 (some ⟨7, 7, 7, 255⟩)) ∧
    (1 : ℕ) < 2 ∧ (1 : ℕ) < 3 :=
  ⟨(rectangle_thin_all_border ⟨2, 3, 1, some ⟨7, 7, 7, 255⟩, some ⟨1, 1, 1, 255⟩⟩).1
      (by decide) (by decide) (Or.inl (by decide)),
    (rectangle_thin_all_border ⟨2, 3, 1, some ⟨7, 7, 7, 255⟩, some ⟨1, 1, 1, 255⟩⟩).2.1
      1 (by decide) (by decide),
    (rectangle_thin_all_border ⟨2, 3, 1, some ⟨7, 7, 7, 255⟩, some ⟨1, 1, 1, 255⟩⟩).2.2
      1 (by decide) (by decide)⟩

end Linfb
